import Mathlib

/-!
Verification development for the hiproc command-snippet store.

The relational store is shallowly embedded: a `Store` holds the three
tables as Lean lists in insertion (rowid) order.  SQL queries become
list filters; `ORDER BY ... DESC` with `first()`/`limit(n)` becomes a
stable sort by the corresponding descending key followed by
`head?`/`take` (ties between equal sort keys keep insertion order,
matching the backend's rowid order).  SQLAlchemy `column == v` where
`v` may be Python `None` compiles to `IS NULL` when `v` is `None`, so
it is embedded as equality of `Option` values.  Python truthiness
gates (`if user:`, `all([...])`) are embedded by `pyTruthy`.
Timestamps are integers supplied explicitly as a `now` argument.
-/

/-- Python truthiness of an optional string: `None` and `""` are falsy. -/
def pyTruthy : Option String → Bool
  | none => false
  | some s => !(s == "")

/-- Substring containment, the semantics of a SQL pattern built as
percent-pattern-percent from a literal segment. -/
def strContains (s pat : String) : Bool :=
  (List.range (s.data.length + 1)).any (fun i => pat.data.isPrefixOf (s.data.drop i))

/-- `SQL col LIKE pattern-with-segment` on a nullable column: a NULL column
never matches. -/
def likeContains (field : Option String) (seg : String) : Bool :=
  match field with
  | none => false
  | some s => strContains s seg

/-- Splitting on every occurrence of a separator character, keeping empty
pieces (the semantics of splitting a Python string on a one-character
separator). -/
def splitOnCharAux (sep : Char) : List Char → List Char → List String
  | [], acc => [String.mk acc.reverse]
  | ch :: rest, acc =>
    if ch == sep then String.mk acc.reverse :: splitOnCharAux sep rest []
    else splitOnCharAux sep rest (ch :: acc)

/-- `s.split(sep)` for a one-character separator. -/
def splitOnChar (sep : Char) (s : String) : List String :=
  splitOnCharAux sep s.data []

/-- Last path segment, as computed by splitting on a slash and taking the
last piece. -/
def lastSegment (s : String) : String :=
  (splitOnChar '/' s).getLastD s

/-- Whitespace-separated words, empty pieces discarded (Python
`s.split()` with no separator). -/
def wordsAux : List Char → List Char → List String
  | [], acc => if acc.isEmpty then [] else [String.mk acc.reverse]
  | ch :: rest, acc =>
    if ch.isWhitespace then
      if acc.isEmpty then wordsAux rest []
      else String.mk acc.reverse :: wordsAux rest []
    else wordsAux rest (ch :: acc)

/-- Lowercase a string character by character. -/
def toLowerStr (s : String) : String :=
  String.mk (s.data.map Char.toLower)

/-- Descending comparison on naturals. -/
def cmpNatDesc (a b : Nat) : Ordering := compare b a

/-- Descending comparison on integers. -/
def cmpIntDesc (a b : Int) : Ordering := compare b a

/-- Descending comparison on a nullable timestamp with nulls last
(SQL order-by-desc-nullslast). -/
def cmpLuDescNullsLast : Option Int → Option Int → Ordering
  | some a, some b => compare b a
  | some _, none => Ordering.lt
  | none, some _ => Ordering.gt
  | none, none => Ordering.eq

/-- A saved command (table `commands`). -/
structure Command where
  id : Nat
  command_string : String
  name : String
  nspace : String
  user : Option String
  cwd : Option String
  hostname : Option String
  scope : String
  created_at : Int
  last_used_at : Option Int
  use_count : Nat
  deriving DecidableEq

/-- One tracked invocation (table `execution_history`). -/
structure ExecutionHistory where
  id : Nat
  command_id : Nat
  user : Option String
  hostname : Option String
  cwd : Option String
  executed_at : Int
  arguments : Option String
  execution_method : String
  duration_ms : Option Int
  exit_code : Option Int
  deriving DecidableEq

/-- A learned directory-pattern/namespace association
(table `project_contexts`). -/
structure ProjectContext where
  id : Nat
  directory_pattern : String
  detected_namespace : String
  project_type : String
  confidence_score : Nat
  last_detected : Int
  usage_count : Nat
  deriving DecidableEq

/-- The whole relational store, rows in insertion order. -/
structure Store where
  commands : List Command
  history : List ExecutionHistory
  contexts : List ProjectContext
  next_command_id : Nat
  next_context_id : Nat
  deriving DecidableEq

/-- order by created_at desc. -/
def createdDescLe (a b : Command) : Bool :=
  (cmpIntDesc a.created_at b.created_at).isLE

/-- order by last_used_at desc nullslast, created_at desc. -/
def luCreatedDescLe (a b : Command) : Bool :=
  ((cmpLuDescNullsLast a.last_used_at b.last_used_at).then
    (cmpIntDesc a.created_at b.created_at)).isLE

/-- order by use_count desc, last_used_at desc nullslast. -/
def useLuDescLe (a b : Command) : Bool :=
  ((cmpNatDesc a.use_count b.use_count).then
    (cmpLuDescNullsLast a.last_used_at b.last_used_at)).isLE

/-- order by use_count desc. -/
def useDescLe (a b : Command) : Bool :=
  (cmpNatDesc a.use_count b.use_count).isLE

/-- Insert into a sorted list, before the first entry the element may
precede (keeps insertion order between entries with equal sort keys). -/
def sortedInsert {α : Type} (le : α → α → Bool) (x : α) : List α → List α
  | [] => [x]
  | y :: ys => if le x y then x :: y :: ys else y :: sortedInsert le x ys

/-- Stable sort by the boolean relation `le`; models SQL `ORDER BY` with
ties between equal sort keys left in rowid (insertion) order. -/
def sortBy {α : Type} (le : α → α → Bool) : List α → List α
  | [] => []
  | x :: xs => sortedInsert le x (sortBy le xs)

/-- `query.filter(p).order_by(le).first()`. -/
def queryFirst (p : Command → Bool) (le : Command → Command → Bool)
    (l : List Command) : Option Command :=
  (sortBy le (l.filter p)).head?

/-- First non-`none` entry of a list of optional results. -/
def firstSome {α : Type} : List (Option α) → Option α
  | [] => none
  | none :: rest => firstSome rest
  | some a :: _ => some a

/-- Evaluate gated tiers in order: a tier whose gate is false is skipped,
a gated-in tier returns its result if non-empty, otherwise evaluation
proceeds. -/
def runTiers {α : Type} : List (Bool × Option α) → Option α
  | [] => none
  | (g, q) :: rest =>
    if g then
      match q with
      | some a => some a
      | none => runTiers rest
    else runTiers rest

/-- use count += 1, last-used timestamp set to current time. -/
def bumpUsage (c : Command) (now : Int) : Command :=
  { c with use_count := c.use_count + 1, last_used_at := some now }

/-- Commit of an in-place usage-stat update of the row with the matched id. -/
def saveBumped (st : Store) (c : Command) (now : Int) : Store :=
  { st with
    commands := st.commands.map (fun x => if x.id == c.id then bumpUsage x now else x) }

/-- Selection part of `recall_command` (crud.py): two personal-scope
filters, two shared-scope filters, then the global fallback, each
additionally filtered by exact name and namespace and ordered by
created_at descending, first match wins. -/
def recallSelect (st : Store) (name nspace : String)
    (user hostname cwd : Option String) : Option Command :=
  firstSome
    [queryFirst
      (fun c => c.name == name && c.nspace == nspace && c.scope == "personal" &&
        c.user == user && c.hostname == hostname && c.cwd == cwd)
      createdDescLe st.commands,
     queryFirst
      (fun c => c.name == name && c.nspace == nspace && c.scope == "personal" &&
        c.user == user && c.hostname == hostname)
      createdDescLe st.commands,
     queryFirst
      (fun c => c.name == name && c.nspace == nspace && !(c.scope == "personal") &&
        c.hostname == hostname && c.cwd == cwd)
      createdDescLe st.commands,
     queryFirst
      (fun c => c.name == name && c.nspace == nspace && !(c.scope == "personal") &&
        c.hostname == hostname)
      createdDescLe st.commands,
     queryFirst
      (fun c => c.name == name && c.nspace == nspace)
      createdDescLe st.commands]

/-- `recall_command` (crud.py): select by tier, then update usage stats and
commit before returning; not-found leaves the store untouched. -/
def recall_command (st : Store) (name nspace : String)
    (user hostname cwd : Option String) (now : Int) : Option Command × Store :=
  match recallSelect st name nspace user hostname cwd with
  | some c => (some (bumpUsage c now), saveBumped st c now)
  | none => (none, st)

/-- The five tiers of primary recall as the specification words them:
1 personal with user+hostname+cwd, 2 personal with user+hostname,
3 non-personal with hostname+cwd, 4 non-personal with hostname,
5 any scope with only name+namespace; each filtered by exact name and
namespace and ordered by creation time descending. -/
def recallTier (st : Store) (name nspace : String)
    (user hostname cwd : Option String) : Nat → Option Command
  | 0 => queryFirst
      (fun c => c.name == name && c.nspace == nspace && c.scope == "personal" &&
        c.user == user && c.hostname == hostname && c.cwd == cwd)
      createdDescLe st.commands
  | 1 => queryFirst
      (fun c => c.name == name && c.nspace == nspace && c.scope == "personal" &&
        c.user == user && c.hostname == hostname)
      createdDescLe st.commands
  | 2 => queryFirst
      (fun c => c.name == name && c.nspace == nspace && !(c.scope == "personal") &&
        c.hostname == hostname && c.cwd == cwd)
      createdDescLe st.commands
  | 3 => queryFirst
      (fun c => c.name == name && c.nspace == nspace && !(c.scope == "personal") &&
        c.hostname == hostname)
      createdDescLe st.commands
  | _ => queryFirst
      (fun c => c.name == name && c.nspace == nspace)
      createdDescLe st.commands

/-- `get_command_by_id` (crud.py): first look for the row with this id owned
by the caller, then fall back to a non-personal row with this id. -/
def get_command_by_id (st : Store) (command_id : Nat) (user : String) : Option Command :=
  match (st.commands.filter (fun c => c.id == command_id && c.user == some user)).head? with
  | some c => some c
  | none =>
      (st.commands.filter (fun c => c.id == command_id && !(c.scope == "personal"))).head?

/-- `update_command` (crud.py): replace the command text of the row with this
id owned by the caller; not-found otherwise. -/
def update_command (st : Store) (command_id : Nat) (user : String)
    (command_string : String) : Option Command × Store :=
  match (st.commands.filter (fun c => c.id == command_id && c.user == some user)).head? with
  | some c =>
      let c2 := { c with command_string := command_string }
      (some c2, { st with commands := st.commands.map (fun x => if x.id == c.id then c2 else x) })
  | none => (none, st)

/-- `rename_command` (crud.py): replace name and namespace of the row with
this id owned by the caller; not-found otherwise. -/
def rename_command (st : Store) (command_id : Nat) (user : String)
    (name nspace : String) : Option Command × Store :=
  match (st.commands.filter (fun c => c.id == command_id && c.user == some user)).head? with
  | some c =>
      let c2 := { c with name := name, nspace := nspace }
      (some c2, { st with commands := st.commands.map (fun x => if x.id == c.id then c2 else x) })
  | none => (none, st)

/-- `delete_command` (crud.py): delete the row with this id owned by the
caller (cascading to its execution rows); not-found otherwise. -/
def delete_command (st : Store) (command_id : Nat) (user : String) :
    Option Command × Store :=
  match (st.commands.filter (fun c => c.id == command_id && c.user == some user)).head? with
  | some c =>
      (some c,
       { st with
         commands := st.commands.filter (fun x => !(x.id == c.id)),
         history := st.history.filter (fun e => !(e.command_id == c.id)) })
  | none => (none, st)

/-- `track_execution` (crud.py): resolve the command through
`get_command_by_id` (which performs the permission check), then update
usage stats. -/
def track_execution (st : Store) (command_id : Nat) (user : String) (now : Int) :
    Option Command × Store :=
  match get_command_by_id st command_id user with
  | some c => (some (bumpUsage c now), saveBumped st c now)
  | none => (none, st)

/-- The nine gated tiers of `recall_command_by_name` (crud.py), in source
order: each entry is the Python gate (truthiness of the required inputs)
paired with the tier's query over the rows with the requested name. -/
def byNameTiers (st : Store) (name : String)
    (user hostname cwd namespace_hint scope_hint : Option String) :
    List (Bool × Option Command) :=
  [(pyTruthy user && pyTruthy hostname && pyTruthy cwd && pyTruthy namespace_hint,
    queryFirst
      (fun c => c.name == name && c.user == user && c.hostname == hostname &&
        c.cwd == cwd && some c.nspace == namespace_hint && c.scope == "personal")
      luCreatedDescLe st.commands),
   (pyTruthy user && pyTruthy hostname && pyTruthy namespace_hint,
    queryFirst
      (fun c => c.name == name && c.user == user && c.hostname == hostname &&
        some c.nspace == namespace_hint && c.scope == "personal")
      luCreatedDescLe st.commands),
   (pyTruthy user && pyTruthy hostname && pyTruthy cwd,
    queryFirst
      (fun c => c.name == name && c.user == user && c.hostname == hostname &&
        c.cwd == cwd && c.scope == "personal")
      useLuDescLe st.commands),
   (pyTruthy user && pyTruthy hostname,
    queryFirst
      (fun c => c.name == name && c.user == user && c.hostname == hostname &&
        c.scope == "personal")
      useLuDescLe st.commands),
   (pyTruthy cwd,
    queryFirst
      (fun c => c.name == name &&
        likeContains c.cwd (lastSegment ((cwd.getD ""))) &&
        (if pyTruthy user then c.user == user else true))
      useDescLe st.commands),
   (pyTruthy namespace_hint,
    queryFirst
      (fun c => c.name == name && some c.nspace == namespace_hint)
      useDescLe st.commands),
   (pyTruthy scope_hint,
    queryFirst
      (fun c => c.name == name && some c.scope == scope_hint)
      useDescLe st.commands),
   (pyTruthy user,
    queryFirst
      (fun c => c.name == name && c.user == user)
      useDescLe st.commands),
   (true,
    queryFirst (fun c => c.name == name) useLuDescLe st.commands)]

/-- Selection part of `recall_command_by_name` (crud.py): run the nine
gated tiers in order, first match of a gated-in tier wins. -/
def byNameSelect (st : Store) (name : String)
    (user hostname cwd namespace_hint scope_hint : Option String) : Option Command :=
  runTiers (byNameTiers st name user hostname cwd namespace_hint scope_hint)

/-- `recall_command_by_name` (crud.py): select, then `_update_usage_stats`
commits the bumped stats before returning; not-found leaves the store
untouched. -/
def recall_command_by_name (st : Store) (name : String)
    (user hostname cwd namespace_hint scope_hint : Option String) (now : Int) :
    Option Command × Store :=
  match byNameSelect st name user hostname cwd namespace_hint scope_hint with
  | some c => (some (bumpUsage c now), saveBumped st c now)
  | none => (none, st)

/-- Request body for creating a command (schemas.CommandCreate). -/
structure CommandCreate where
  command_string : String
  name : String
  nspace : String
  user : Option String
  cwd : Option String
  hostname : Option String
  scope : String
  deriving DecidableEq

/-- The exact-duplicate check of `create_command`: agreement on the full
7-tuple (command text, name, namespace, owner, cwd, hostname, scope). -/
def matchesCreate (req : CommandCreate) (c : Command) : Bool :=
  c.command_string == req.command_string && c.name == req.name &&
  c.nspace == req.nspace && c.user == req.user && c.cwd == req.cwd &&
  c.hostname == req.hostname && c.scope == req.scope

/-- Result of `create_command`: the returned record, the transient
`is_new` flag (a Python attribute, not a stored column), and the store. -/
structure CreateResult where
  cmd : Command
  is_new : Bool
  store : Store
  deriving DecidableEq

/-- `create_command` (crud.py): return the first stored row agreeing on all
seven fields flagged not-new and insert nothing; otherwise insert a fresh
row (use_count 0, no last-used timestamp, server-assigned id and creation
time) and return it flagged new. -/
def create_command (st : Store) (req : CommandCreate) (now : Int) : CreateResult :=
  match (st.commands.filter (matchesCreate req)).head? with
  | some existing => ⟨existing, false, st⟩
  | none =>
    let c : Command :=
      { id := st.next_command_id, command_string := req.command_string,
        name := req.name, nspace := req.nspace, user := req.user,
        cwd := req.cwd, hostname := req.hostname, scope := req.scope,
        created_at := now, last_used_at := none, use_count := 0 }
    ⟨c, true,
     { st with commands := st.commands ++ [c],
               next_command_id := st.next_command_id + 1 }⟩

/-- Number of execution rows of a command whose recorded cwd contains the
given directory segment (the join condition of suggestions tier 1). -/
def execMatchCount (st : Store) (seg : String) (c : Command) : Nat :=
  (st.history.filter (fun e => e.command_id == c.id && likeContains e.cwd seg)).length

/-- Dedup-with-cap loop at the end of `get_suggestions_for_context`:
append a candidate only when its id is unseen and the accumulated result
is still below the limit. -/
def dedupCap (limit : Nat) : List Nat → List Command → List Command
  | _, [] => []
  | seen, c :: rest =>
    if !(seen.contains c.id) && decide (seen.length < limit) then
      c :: dedupCap limit (seen ++ [c.id]) rest
    else dedupCap limit seen rest

/-- `get_suggestions_for_context` (crud.py): three gated accumulation
tiers — commands executed in similar directories ranked by matching
execution count, the user's commands by use_count, non-personal commands
by use_count — then dedup by id preserving order, capped at the limit.
No write is committed. -/
def get_suggestions_for_context (st : Store)
    (user hostname cwd project_type : Option String) (limit : Nat) :
    List Command × Store :=
  let s1 :=
    if pyTruthy cwd then
      let seg := lastSegment (cwd.getD "")
      ((((st.commands.map (fun c => (c, execMatchCount st seg c))).filter
          (fun p => decide (0 < p.2))) |> sortBy
          (fun a b => (cmpNatDesc a.2 b.2).isLE)).map Prod.fst).take limit
    else []
  let s2 :=
    if pyTruthy user && decide (s1.length < limit) then
      (sortBy useDescLe (st.commands.filter (fun c => c.user == user))).take
        (limit - s1.length)
    else []
  let s12 := s1 ++ s2
  let s3 :=
    if decide (s12.length < limit) then
      (sortBy useDescLe (st.commands.filter (fun c =>
        !(c.scope == "personal")))).take (limit - s12.length)
    else []
  (dedupCap limit [] (s12 ++ s3), st)

/-- Filesystem probe results available to project-context detection: which
marker files exist next to the directory, and the project name parsed out
of the npm or cargo manifest when parsing succeeds (`none` models both a
missing manifest and a swallowed parse failure). -/
structure Fs where
  file_exists : String → Bool
  npm_name : Option String
  cargo_name : Option String

/-- Response of project-context detection (schemas). -/
structure ProjectContextResponse where
  detected_namespace : Option String
  project_type : Option String
  confidence_score : Nat
  similar_commands : List String
  deriving DecidableEq

/-- The fixed ordered marker-file table of `detect_project_context`. -/
def project_files : List (String × String) :=
  [("package.json", "npm"), ("Cargo.toml", "cargo"), ("pyproject.toml", "python"),
   ("pom.xml", "maven"), (".git", "git"), ("requirements.txt", "pip"),
   ("go.mod", "go"), ("Dockerfile", "docker")]

/-- `detect_project_context` (crud.py).  Seen pattern: increment the stored
usage_count, refresh the stored timestamp, and answer with the stored
namespace, the stored confidence plus 5 capped at 100, and up to 5 command
names from the stored namespace.  New pattern: probe the marker table in
order (confidence 80 on a hit, else 50), default the namespace to the
directory name, best-effort parse of an npm/cargo project name raising
confidence to 90, then persist a fresh ProjectContext row. -/
def detect_project_context (st : Store) (fs : Fs) (directory_path : String)
    (user : Option String) (now : Int) : ProjectContextResponse × Store :=
  let dir_name := lastSegment directory_path
  match (st.contexts.filter (fun pc => pc.directory_pattern == dir_name)).head? with
  | some ctx =>
    let st2 :=
      { st with contexts := st.contexts.map (fun x =>
          if x.id == ctx.id then
            { x with usage_count := x.usage_count + 1, last_detected := now }
          else x) }
    let similar :=
      ((st.commands.filter (fun c => c.nspace == ctx.detected_namespace)).take 5).map
        (fun c => c.name)
    ({ detected_namespace := some ctx.detected_namespace,
       project_type := some ctx.project_type,
       confidence_score := min 100 (ctx.confidence_score + 5),
       similar_commands := similar }, st2)
  | none =>
    let detected := (project_files.filter (fun p => fs.file_exists p.1)).head?
    let detected_type : Option String := detected.map (fun p => p.2)
    let confidence : Nat := if detected.isSome then 80 else 50
    let parsed :=
      if detected_type == some "npm" then
        match fs.npm_name with
        | some n => (n, 90)
        | none => (dir_name, confidence)
      else if detected_type == some "cargo" then
        match fs.cargo_name with
        | some n => (n, 90)
        | none => (dir_name, confidence)
      else (dir_name, confidence)
    let newCtx : ProjectContext :=
      { id := st.next_context_id, directory_pattern := dir_name,
        detected_namespace := parsed.1, project_type := detected_type.getD "unknown",
        confidence_score := parsed.2, last_detected := now, usage_count := 1 }
    ({ detected_namespace := some parsed.1, project_type := detected_type,
       confidence_score := parsed.2, similar_commands := [] },
     { st with contexts := st.contexts ++ [newCtx],
               next_context_id := st.next_context_id + 1 })

/-- Lowercase whitespace-token word set of a command text
(`set(s.lower().split())`), as a duplicate-free list. -/
def wordSet (s : String) : List String :=
  (wordsAux (toLowerStr s).data []).dedup

/-- Size of the intersection of the two word sets. -/
def wordOverlap (a b : String) : Nat :=
  ((wordSet a).filter (fun w => (wordSet b).contains w)).length

/-- `get_command_similarity` (crud.py): empty when the id is absent;
otherwise same-namespace commands excluding self by use_count descending
up to the limit, and, only when those fall short of the limit, the scan
of all other commands by word overlap (> 0), sorted by overlap
descending with ties in scan order, appended up to the limit. -/
def get_command_similarity (st : Store) (command_id : Nat) (limit : Nat) :
    List Command :=
  match (st.commands.filter (fun c => c.id == command_id)).head? with
  | none => []
  | some base =>
    let namespace_similar :=
      (sortBy useDescLe (st.commands.filter (fun c =>
          c.nspace == base.nspace && !(c.id == command_id)))).take limit
    if limit ≤ namespace_similar.length then namespace_similar
    else
      let remaining := st.commands.filter (fun c => !(c.id == command_id))
      let similar_commands :=
        (remaining.map (fun c => (c, wordOverlap base.command_string c.command_string))).filter
          (fun p => decide (0 < p.2))
      let similarSorted :=
        sortBy (fun a b => (cmpNatDesc a.2 b.2).isLE) similar_commands
      let result :=
        namespace_similar ++
          (similarSorted.take (limit - namespace_similar.length)).map Prod.fst
      result.take limit

/-- One row of the top-executed listing of the analytics result. -/
structure AnalyticsRow where
  name : String
  nspace : String
  execution_count : Nat
  deriving DecidableEq

/-- The analytics result dictionary. -/
structure Analytics where
  total_executions : Nat
  unique_commands : Nat
  average_executions_per_day : ℚ
  most_used_commands : List AnalyticsRow
  execution_methods : List (String × Nat)
  deriving DecidableEq

/-- `get_execution_analytics` (crud.py): aggregate the execution rows of
the last `days` days (optionally filtered by user): total count, distinct
command count, average per day (`total / days` when `days > 0` else 0),
the top 10 commands by execution count, and per-method counts ordered by
count descending.  No write is committed. -/
def get_execution_analytics (st : Store) (user : Option String) (days : Nat)
    (now : Int) : Analytics × Store :=
  let from_date := now - (days : Int) * 86400
  let filtered := st.history.filter (fun e =>
    decide (from_date ≤ e.executed_at) &&
      (if pyTruthy user then e.user == user else true))
  let grouped :=
    (st.commands.map (fun c =>
      (c, (filtered.filter (fun e => e.command_id == c.id)).length))).filter
      (fun p => decide (0 < p.2))
  let most_executed :=
    ((sortBy (fun a b => (cmpNatDesc a.2 b.2).isLE) grouped).take 10).map
      (fun p => AnalyticsRow.mk p.1.name p.1.nspace p.2)
  let methods := (filtered.map (fun e => e.execution_method)).dedup
  let method_stats :=
    (methods.map (fun m =>
      (m, (filtered.filter (fun e => e.execution_method == m)).length))) |> sortBy
      (fun a b => (cmpNatDesc a.2 b.2).isLE)
  let total := filtered.length
  let uniq :=
    ((filtered.filter (fun e => st.commands.any (fun c => c.id == e.command_id))).map
      (fun e => e.command_id)).dedup.length
  let avg : ℚ := if 0 < days then (total : ℚ) / (days : ℚ) else 0
  ({ total_executions := total, unique_commands := uniq,
     average_executions_per_day := avg, most_used_commands := most_executed,
     execution_methods := method_stats }, st)

/-- What the claims demand of one usage-stat-updating operation on a store:
not-found mutates nothing; a successful result is a stored record whose
use_count rose by exactly one, whose last-used timestamp is the current
time (at least its previous value), with all other fields unchanged, the
store rewritten only at that record. -/
def UsageBumpOk (st : Store) (now : Int) (res : Option Command × Store) : Prop :=
  (res.1 = none → res.2 = st) ∧
  ∀ cmd, res.1 = some cmd →
    ∃ old, old ∈ st.commands ∧ cmd = bumpUsage old now ∧
      cmd.use_count = old.use_count + 1 ∧
      cmd.last_used_at = some now ∧
      (∀ t, old.last_used_at = some t → t ≤ now) ∧
      cmd.id = old.id ∧ cmd.command_string = old.command_string ∧
      cmd.name = old.name ∧ cmd.nspace = old.nspace ∧ cmd.user = old.user ∧
      cmd.cwd = old.cwd ∧ cmd.hostname = old.hostname ∧ cmd.scope = old.scope ∧
      cmd.created_at = old.created_at ∧
      res.2.commands = st.commands.map (fun x => if x.id = old.id then cmd else x) ∧
      res.2.history = st.history ∧ res.2.contexts = st.contexts ∧
      ∀ x ∈ st.commands, x.id ≠ old.id → x ∈ res.2.commands

/-- The record `create_command` inserts for a request, given the id
counter and the server-assigned creation time. -/
def freshCommand (req : CommandCreate) (nid : Nat) (now : Int) : Command :=
  { id := nid, command_string := req.command_string, name := req.name,
    nspace := req.nspace, user := req.user, cwd := req.cwd,
    hostname := req.hostname, scope := req.scope, created_at := now,
    last_used_at := none, use_count := 0 }

/-- Fixture: a personal-scope command saved with no user, hostname or cwd. -/
def cmdNullCtx : Command :=
  ⟨1, "echo a", "n", "s", none, none, none, "personal", 0, none, 0⟩

/-- Fixture: a later-created shared-scope command with a high use count. -/
def cmdShared : Command :=
  ⟨2, "echo b", "n", "s", some "x", some "/d", some "h", "shared", 10, none, 99⟩

/-- Fixture store holding the two commands above. -/
def stTwo : Store := ⟨[cmdNullCtx, cmdShared], [], [], 3, 1⟩

/-- Fixture: a personal-scope command owned by alice. -/
def cmdAlicePersonal : Command :=
  ⟨1, "echo alice secret", "secret", "tools", some "alice", none, none,
   "personal", 0, none, 5⟩

/-- Fixture store holding only alice's personal command. -/
def stAlice : Store := ⟨[cmdAlicePersonal], [], [], 2, 1⟩

/-- Fixture: base command for the similarity scenarios. -/
def simBase : Command :=
  ⟨1, "make build", "b", "ns", none, none, none, "personal", 0, none, 0⟩

/-- Fixture: another command sharing the namespace and the word make. -/
def simOther : Command :=
  ⟨2, "make test", "t", "ns", none, none, none, "personal", 0, none, 3⟩

/-- Fixture store for the similarity scenarios. -/
def stSim : Store := ⟨[simBase, simOther], [], [], 3, 1⟩

/-- Fixture: an already-learned project context with confidence 50. -/
def ctxSeen : ProjectContext := ⟨1, "p", "ns", "npm", 50, 0, 1⟩

/-- Fixture store holding the learned context. -/
def stCtx : Store := ⟨[], [], [ctxSeen], 1, 2⟩

/-- Fixture filesystem with no marker files and no parsable manifests. -/
def fsEmpty : Fs := ⟨fun _ => false, none, none⟩

/-- Fixture creation request. -/
def reqDemo : CommandCreate :=
  ⟨"top", "processes", "system", some "testuser", none, none, "personal"⟩

/-- Fixture: the empty store. -/
def stEmpty : Store := ⟨[], [], [], 1, 1⟩

/-- Similarity tier a as the specification words it: same-namespace
commands excluding the base, ordered by use_count descending, up to the
limit. -/
def nsSimilar (st : Store) (base : Command) (command_id limit : Nat) :
    List Command :=
  (sortBy useDescLe (st.commands.filter (fun c =>
    c.nspace == base.nspace && !(c.id == command_id)))).take limit

/-- Similarity tier b as the specification words it: every other command
paired with its word overlap with the base, kept when the overlap is
positive, sorted by overlap descending with ties in scan order. -/
def overlapRanked (st : Store) (base : Command) (command_id : Nat) :
    List (Command × Nat) :=
  sortBy (fun a b => (cmpNatDesc a.2 b.2).isLE)
    (((st.commands.filter (fun c => !(c.id == command_id))).map
      (fun c => (c, wordOverlap base.command_string c.command_string))).filter
      (fun p => decide (0 < p.2)))

/-- The concatenation of the three gated accumulation tiers of
suggestions, before dedup: similar-directory executions ranked by
matching execution count, then the caller's commands by use_count, then
non-personal commands by use_count, the later tiers gated on the
accumulated length staying below the limit. -/
def suggestCand (st : Store) (user cwd : Option String) (limit : Nat) :
    List Command :=
  let s1 :=
    if pyTruthy cwd then
      let seg := lastSegment (cwd.getD "")
      ((((st.commands.map (fun c => (c, execMatchCount st seg c))).filter
          (fun p => decide (0 < p.2))) |> sortBy
          (fun a b => (cmpNatDesc a.2 b.2).isLE)).map Prod.fst).take limit
    else []
  let s2 :=
    if pyTruthy user && decide (s1.length < limit) then
      (sortBy useDescLe (st.commands.filter (fun c => c.user == user))).take
        (limit - s1.length)
    else []
  let s12 := s1 ++ s2
  let s3 :=
    if decide (s12.length < limit) then
      (sortBy useDescLe (st.commands.filter (fun c =>
        !(c.scope == "personal")))).take (limit - s12.length)
    else []
  s12 ++ s3

lemma mem_sortedInsert {α : Type} (le : α → α → Bool) (x : α) (l : List α) (a : α) :
    a ∈ sortedInsert le x l ↔ a = x ∨ a ∈ l := by
  induction l with
  | nil => simp [sortedInsert]
  | cons y ys ih =>
    simp only [sortedInsert]
    by_cases h : le x y = true
    · simp [h]
    · simp only [if_neg h, List.mem_cons, ih]
      tauto

lemma mem_sortBy {α : Type} (le : α → α → Bool) (l : List α) (a : α) :
    a ∈ sortBy le l ↔ a ∈ l := by
  induction l with
  | nil => simp [sortBy]
  | cons y ys ih => simp [sortBy, mem_sortedInsert, ih]

lemma pairwise_sortedInsert {α : Type} (le : α → α → Bool)
    (htrans : ∀ a b c, le a b = true → le b c = true → le a c = true)
    (htotal : ∀ a b, le a b = true ∨ le b a = true) (x : α) (l : List α)
    (hl : l.Pairwise (fun a b => le a b = true)) :
    (sortedInsert le x l).Pairwise (fun a b => le a b = true) := by
  induction l with
  | nil => simp [sortedInsert]
  | cons y ys ih =>
    rw [List.pairwise_cons] at hl
    simp only [sortedInsert]
    by_cases h : le x y = true
    · rw [if_pos h]
      refine List.pairwise_cons.mpr ⟨?_, List.pairwise_cons.mpr hl⟩
      intro z hz
      rcases List.mem_cons.mp hz with hz | hz
      · exact hz ▸ h
      · exact htrans x y z h (hl.1 z hz)
    · rw [if_neg h]
      refine List.pairwise_cons.mpr ⟨?_, ih hl.2⟩
      intro z hz
      rcases (mem_sortedInsert le x ys z).mp hz with hz | hz
      · rw [hz]
        rcases htotal x y with hxy | hyx
        · exact absurd hxy h
        · exact hyx
      · exact hl.1 z hz

lemma pairwise_sortBy {α : Type} (le : α → α → Bool)
    (htrans : ∀ a b c, le a b = true → le b c = true → le a c = true)
    (htotal : ∀ a b, le a b = true ∨ le b a = true) (l : List α) :
    (sortBy le l).Pairwise (fun a b => le a b = true) := by
  induction l with
  | nil => simp [sortBy]
  | cons y ys ih => exact pairwise_sortedInsert le htrans htotal y (sortBy le ys) ih

lemma queryFirst_some {p : Command → Bool} {le : Command → Command → Bool}
    {l : List Command} {c : Command} (h : queryFirst p le l = some c) :
    c ∈ l ∧ p c = true := by
  have hh : (sortBy le (l.filter p)).head? = some c := h
  have hm : c ∈ sortBy le (l.filter p) := List.mem_of_mem_head? (Option.mem_def.mpr hh)
  have hm2 : c ∈ l.filter p := (mem_sortBy le (l.filter p) c).mp hm
  exact List.mem_filter.mp hm2

lemma firstSome_mem {α : Type} (l : List (Option α)) (a : α)
    (h : firstSome l = some a) : some a ∈ l := by
  induction l with
  | nil => simp [firstSome] at h
  | cons o rest ih =>
    match o with
    | none => exact List.mem_cons_of_mem none (ih h)
    | some b =>
      simp only [firstSome] at h
      exact h ▸ List.mem_cons_self _ _

lemma runTiers_mem {α : Type} (l : List (Bool × Option α)) (a : α)
    (h : runTiers l = some a) : ∃ p ∈ l, p.2 = some a := by
  induction l with
  | nil => simp [runTiers] at h
  | cons pq rest ih =>
    match pq with
    | (g, q) =>
      simp only [runTiers] at h
      by_cases hg : g = true
      · rw [if_pos hg] at h
        match q with
        | some b =>
          refine ⟨(g, some b), List.mem_cons_self _ _, ?_⟩
          simpa using h
        | none =>
          obtain ⟨p, hp, hh⟩ := ih h
          exact ⟨p, List.mem_cons_of_mem _ hp, hh⟩
      · rw [if_neg hg] at h
        obtain ⟨p, hp, hh⟩ := ih h
        exact ⟨p, List.mem_cons_of_mem _ hp, hh⟩

lemma runTiers_eraseIdx {α : Type} (l : List (Bool × Option α)) (k : Nat)
    (hk : k < l.length) (hg : (l.get ⟨k, hk⟩).1 = false) :
    runTiers l = runTiers (l.eraseIdx k) := by
  induction l generalizing k with
  | nil => simp at hk
  | cons pq rest ih =>
    match k with
    | 0 =>
      simp only [List.get] at hg
      simp only [List.eraseIdx]
      match pq with
      | (g, q) =>
        simp only at hg
        simp only [runTiers, hg]
        simp
    | k + 1 =>
      simp only [List.eraseIdx]
      have hk2 : k < rest.length := Nat.lt_of_succ_lt_succ hk
      have hg2 : (rest.get ⟨k, hk2⟩).1 = false := hg
      match pq with
      | (g, q) =>
        simp only [runTiers]
        by_cases hgg : g = true
        · rw [if_pos hgg, if_pos hgg]
          match q with
          | some b => rfl
          | none => exact ih k hk2 hg2
        · rw [if_neg hgg, if_neg hgg]
          exact ih k hk2 hg2

lemma dedupCap_sublist (limit : Nat) (l : List Command) : ∀ seen,
    (dedupCap limit seen l).Sublist l := by
  induction l with
  | nil => intro seen; simp [dedupCap]
  | cons c rest ih =>
    intro seen
    simp only [dedupCap]
    by_cases h : (!(seen.contains c.id) && decide (seen.length < limit)) = true
    · rw [if_pos h]
      exact List.Sublist.cons₂ c (ih _)
    · rw [if_neg h]
      exact List.Sublist.cons c (ih seen)

lemma dedupCap_length (limit : Nat) (l : List Command) : ∀ seen,
    (dedupCap limit seen l).length ≤ limit - seen.length := by
  induction l with
  | nil => intro seen; simp [dedupCap]
  | cons c rest ih =>
    intro seen
    simp only [dedupCap]
    by_cases h : (!(seen.contains c.id) && decide (seen.length < limit)) = true
    · rw [if_pos h]
      have hlt : seen.length < limit := of_decide_eq_true (Bool.and_elim_right h)
      have hrec := ih (seen ++ [c.id])
      simp only [List.length_append, List.length_cons] at hrec ⊢
      omega
    · rw [if_neg h]
      exact ih seen

lemma dedupCap_nodup (limit : Nat) (l : List Command) : ∀ seen,
    ((dedupCap limit seen l).map (fun c => c.id)).Nodup ∧
    ∀ i ∈ seen, i ∉ (dedupCap limit seen l).map (fun c => c.id) := by
  induction l with
  | nil => intro seen; simp [dedupCap]
  | cons c rest ih =>
    intro seen
    simp only [dedupCap]
    by_cases h : (!(seen.contains c.id) && decide (seen.length < limit)) = true
    · rw [if_pos h]
      have hnc : c.id ∉ seen := by
        have hb := Bool.and_elim_left h
        simpa using hb
      obtain ⟨hnd, hni⟩ := ih (seen ++ [c.id])
      refine ⟨?_, ?_⟩
      · simp only [List.map_cons, List.nodup_cons]
        exact ⟨hni c.id (by simp), hnd⟩
      · intro i hi
        simp only [List.map_cons, List.mem_cons]
        push_neg
        refine ⟨?_, hni i (by simp [hi])⟩
        intro he
        exact hnc (he ▸ hi)
    · rw [if_neg h]
      exact ih seen

lemma recallSelect_mem {st : Store} {name nspace : String}
    {user hostname cwd : Option String} {c : Command}
    (hsel : recallSelect st name nspace user hostname cwd = some c) :
    c ∈ st.commands := by
  have hm := firstSome_mem _ _ hsel
  simp only [List.mem_cons, List.not_mem_nil, or_false] at hm
  rcases hm with h1 | h1 | h1 | h1 | h1 <;> exact (queryFirst_some h1.symm).1

lemma byNameSelect_mem {st : Store} {name : String}
    {user hostname cwd nh sh : Option String} {c : Command}
    (hsel : byNameSelect st name user hostname cwd nh sh = some c) :
    c ∈ st.commands := by
  obtain ⟨p, hp, hq⟩ := runTiers_mem _ _ hsel
  simp only [byNameTiers, List.mem_cons, List.not_mem_nil, or_false] at hp
  rcases hp with h1 | h1 | h1 | h1 | h1 | h1 | h1 | h1 | h1 <;>
    (rw [h1] at hq; exact (queryFirst_some hq).1)

lemma get_command_by_id_mem {st : Store} {cid : Nat} {user : String} {c : Command}
    (h : get_command_by_id st cid user = some c) : c ∈ st.commands := by
  unfold get_command_by_id at h
  split at h
  case _ d h1 =>
    have hd : d ∈ st.commands :=
      (List.mem_filter.mp (List.mem_of_mem_head? (Option.mem_def.mpr h1))).1
    have : d = c := by simpa using h
    exact this ▸ hd
  case _ h1 =>
    exact (List.mem_filter.mp (List.mem_of_mem_head? (Option.mem_def.mpr h))).1

lemma usage_bump_none (st : Store) (now : Int) : UsageBumpOk st now (none, st) := by
  refine ⟨fun _ => rfl, fun cmd hc => ?_⟩
  simp at hc

lemma usage_bump_some (st : Store) (now : Int) (c : Command)
    (hnodup : (st.commands.map (fun c => c.id)).Nodup)
    (htime : ∀ c ∈ st.commands, ∀ t, c.last_used_at = some t → t ≤ now)
    (hcm : c ∈ st.commands) :
    UsageBumpOk st now (some (bumpUsage c now), saveBumped st c now) := by
  refine ⟨fun hnone => by simp at hnone, fun cmd hcmd => ?_⟩
  have hceq : bumpUsage c now = cmd := by simpa using hcmd
  refine ⟨c, hcm, hceq.symm, ?_⟩
  rw [← hceq]
  refine ⟨rfl, rfl, htime c hcm, rfl, rfl, rfl, rfl, rfl, rfl, rfl, rfl, rfl, ?_,
    rfl, rfl, ?_⟩
  · show (saveBumped st c now).commands = _
    unfold saveBumped
    simp only
    apply List.map_congr_left
    intro x hx
    by_cases he : x.id = c.id
    · have hxo : x = c := List.inj_on_of_nodup_map hnodup hx hcm he
      simp [he, hxo]
    · simp [he]
  · intro x hx hne
    show x ∈ (saveBumped st c now).commands
    unfold saveBumped
    simp only
    refine List.mem_map.mpr ⟨x, hx, ?_⟩
    simp [hne]
/-- C1: every `recall_command` resolution equals the first non-empty tier
of the fixed five-tier priority table (personal user+hostname+cwd,
personal user+hostname, non-personal hostname+cwd, non-personal hostname,
global), each tier filtered by exact name and namespace and ordered by
creation time descending; the returned command always comes from a tier
all of whose predecessors are empty, so a match at tier k is returned no
matter what later tiers hold. -/
theorem recall_priority_order (st : Store) (name nspace : String)
    (user hostname cwd : Option String) :
    recallSelect st name nspace user hostname cwd =
      firstSome ((List.range 5).map (recallTier st name nspace user hostname cwd)) ∧
    ∀ cmd, recallSelect st name nspace user hostname cwd = some cmd →
      ∃ k, k < 5 ∧
        (∀ j, j < k → recallTier st name nspace user hostname cwd j = none) ∧
        recallTier st name nspace user hostname cwd k = some cmd := by
  constructor
  · rfl
  · intro cmd hcmd
    have h5 : firstSome
        [recallTier st name nspace user hostname cwd 0,
         recallTier st name nspace user hostname cwd 1,
         recallTier st name nspace user hostname cwd 2,
         recallTier st name nspace user hostname cwd 3,
         recallTier st name nspace user hostname cwd 4] = some cmd := hcmd
    cases h0 : recallTier st name nspace user hostname cwd 0 with
    | some c0 =>
      rw [h0] at h5
      simp only [firstSome] at h5
      exact ⟨0, by omega, fun j hj => absurd hj (Nat.not_lt_zero j),
        by rw [h0]; exact h5⟩
    | none =>
    rw [h0] at h5
    simp only [firstSome] at h5
    cases h1 : recallTier st name nspace user hostname cwd 1 with
    | some c1 =>
      rw [h1] at h5
      simp only [firstSome] at h5
      refine ⟨1, by omega, ?_, by rw [h1]; exact h5⟩
      intro j hj
      interval_cases j
      exact h0
    | none =>
    rw [h1] at h5
    simp only [firstSome] at h5
    cases h2 : recallTier st name nspace user hostname cwd 2 with
    | some c2 =>
      rw [h2] at h5
      simp only [firstSome] at h5
      refine ⟨2, by omega, ?_, by rw [h2]; exact h5⟩
      intro j hj
      interval_cases j
      · exact h0
      · exact h1
    | none =>
    rw [h2] at h5
    simp only [firstSome] at h5
    cases h3 : recallTier st name nspace user hostname cwd 3 with
    | some c3 =>
      rw [h3] at h5
      simp only [firstSome] at h5
      refine ⟨3, by omega, ?_, by rw [h3]; exact h5⟩
      intro j hj
      interval_cases j
      · exact h0
      · exact h1
      · exact h2
    | none =>
    rw [h3] at h5
    simp only [firstSome] at h5
    cases h4 : recallTier st name nspace user hostname cwd 4 with
    | some c4 =>
      rw [h4] at h5
      simp only [firstSome] at h5
      refine ⟨4, by omega, ?_, by rw [h4]; exact h5⟩
      intro j hj
      interval_cases j
      · exact h0
      · exact h1
      · exact h2
      · exact h3
    | none =>
      rw [h4] at h5
      simp [firstSome] at h5

/-- Witness for C1 at a concrete store: the all-null recall resolves and
its result is placed by the tier characterization. -/
theorem recall_priority_order_witness :
    ∃ k, k < 5 ∧
      (∀ j, j < k → recallTier stTwo "n" "s" none none none j = none) ∧
      recallTier stTwo "n" "s" none none none k = some cmdNullCtx :=
  (recall_priority_order stTwo "n" "s" none none none).2 cmdNullCtx (by decide)

/-- C3: every successful recall (`recall_command`,
`recall_command_by_name`) and every successful `track_execution`
increments the matched record's use_count by exactly 1, sets its
last-used timestamp to the current time (at least its previous value),
leaves every other field and every other record unchanged, and a
not-found result mutates nothing. -/
theorem usage_stats_spec (st : Store) (now : Int)
    (hnodup : (st.commands.map (fun c => c.id)).Nodup)
    (htime : ∀ c ∈ st.commands, ∀ t, c.last_used_at = some t → t ≤ now) :
    (∀ name nspace user hostname cwd,
      UsageBumpOk st now (recall_command st name nspace user hostname cwd now)) ∧
    (∀ name user hostname cwd namespace_hint scope_hint,
      UsageBumpOk st now
        (recall_command_by_name st name user hostname cwd namespace_hint
          scope_hint now)) ∧
    (∀ command_id user,
      UsageBumpOk st now (track_execution st command_id user now)) := by
  refine ⟨fun name nspace u hn cw => ?_, fun name u hn cw nh sh => ?_,
    fun cid u => ?_⟩
  · cases hsel : recallSelect st name nspace u hn cw with
    | none =>
      simp only [recall_command, hsel]
      exact usage_bump_none st now
    | some c =>
      simp only [recall_command, hsel]
      exact usage_bump_some st now c hnodup htime (recallSelect_mem hsel)
  · cases hsel : byNameSelect st name u hn cw nh sh with
    | none =>
      simp only [recall_command_by_name, hsel]
      exact usage_bump_none st now
    | some c =>
      simp only [recall_command_by_name, hsel]
      exact usage_bump_some st now c hnodup htime (byNameSelect_mem hsel)
  · cases hsel : get_command_by_id st cid u with
    | none =>
      simp only [track_execution, hsel]
      exact usage_bump_none st now
    | some c =>
      simp only [track_execution, hsel]
      exact usage_bump_some st now c hnodup htime (get_command_by_id_mem hsel)

/-- Witness for C3 at a concrete store. -/
theorem usage_stats_spec_witness :
    UsageBumpOk stAlice 100 (track_execution stAlice 1 "alice" 100) :=
  (usage_stats_spec stAlice 100 (by decide)
    (fun c hc t ht => by
      have hc2 : c = cmdAlicePersonal := by simpa [stAlice] using hc
      rw [hc2] at ht
      simp [cmdAlicePersonal] at ht)).2.2 1 "alice"

/-- C2 counterexample: alice's personal-scope command is returned to the
distinct caller bob by name-based recall, through the unfiltered global
fallback tier, so name-based recall does not yield not-found for a
foreign personal record. -/
theorem ownership_isolation_counterexample :
    cmdAlicePersonal.scope = "personal" ∧
    cmdAlicePersonal.user = some "alice" ∧
    "bob" ≠ "alice" ∧
    (recall_command_by_name stAlice "secret" (some "bob") none none none none
      100).1 = some (bumpUsage cmdAlicePersonal 100) := by
  refine ⟨rfl, rfl, by decide, by decide⟩

/-- C2 (amended): ownership isolation holds for the identifier-addressed
operations: when every stored row with the requested id is a
personal-scope record owned by a, a caller b distinct from a receives
the not-found result with the store unchanged from get-by-id, update,
rename, delete, and track-execution.  (Name-based recall is exempt: its
fallback tiers carry no ownership filter, see the counterexample.) -/
theorem ownership_isolation_id_ops (st : Store) (command_id : Nat) (a b : String)
    (hab : b ≠ a)
    (hrows : ∀ c ∈ st.commands, c.id = command_id →
      c.scope = "personal" ∧ c.user = some a) :
    get_command_by_id st command_id b = none ∧
    (∀ s, update_command st command_id b s = (none, st)) ∧
    (∀ nm ns, rename_command st command_id b nm ns = (none, st)) ∧
    delete_command st command_id b = (none, st) ∧
    (∀ now, track_execution st command_id b now = (none, st)) := by
  have hf1 : st.commands.filter
      (fun c => c.id == command_id && c.user == some b) = [] := by
    rw [List.filter_eq_nil_iff]
    intro c hc hcp
    rw [Bool.and_eq_true] at hcp
    obtain ⟨hid, hub⟩ := hcp
    obtain ⟨_, hu⟩ := hrows c hc (by simpa using hid)
    rw [hu] at hub
    have hba : a = b := by simpa using hub
    exact hab hba.symm
  have hf2 : st.commands.filter
      (fun c => c.id == command_id && !(c.scope == "personal")) = [] := by
    rw [List.filter_eq_nil_iff]
    intro c hc hcp
    rw [Bool.and_eq_true] at hcp
    obtain ⟨hid, hsp⟩ := hcp
    obtain ⟨hs, _⟩ := hrows c hc (by simpa using hid)
    rw [hs] at hsp
    simp at hsp
  have hbyid : get_command_by_id st command_id b = none := by
    unfold get_command_by_id
    rw [hf1, hf2]
    rfl
  refine ⟨hbyid, ?_, ?_, ?_, ?_⟩
  · intro s
    unfold update_command
    rw [hf1]
    rfl
  · intro nm ns
    unfold rename_command
    rw [hf1]
    rfl
  · unfold delete_command
    rw [hf1]
    rfl
  · intro now
    unfold track_execution
    rw [hbyid]

/-- Witness for the amended C2 at a concrete store. -/
theorem ownership_isolation_id_ops_witness :
    get_command_by_id stAlice 1 "bob" = none ∧
    (∀ s, update_command stAlice 1 "bob" s = (none, stAlice)) ∧
    (∀ nm ns, rename_command stAlice 1 "bob" nm ns = (none, stAlice)) ∧
    delete_command stAlice 1 "bob" = (none, stAlice) ∧
    (∀ now, track_execution stAlice 1 "bob" now = (none, stAlice)) :=
  ownership_isolation_id_ops stAlice 1 "alice" "bob" (by decide)
    (fun c hc _ => by
      have hc2 : c = cmdAlicePersonal := by simpa [stAlice] using hc
      subst hc2
      exact ⟨rfl, rfl⟩)

/-- C4 counterexample: detecting an already-learned pattern (stored
confidence 50) answers confidence 55 but leaves the stored
confidence_score at 50, so the stored record's confidence does not
increase by 5 as the claim states. -/
theorem detect_context_confidence_counterexample :
    ctxSeen.confidence_score = 50 ∧
    (detect_project_context stCtx fsEmpty "x/p" none 100).1.confidence_score = 55 ∧
    (detect_project_context stCtx fsEmpty "x/p" none 100).2.contexts.map
      (fun c => c.confidence_score) = [50] ∧
    ¬((detect_project_context stCtx fsEmpty "x/p" none 100).2.contexts.map
      (fun c => c.confidence_score) = [55]) := by
  refine ⟨rfl, by decide, by decide, by decide⟩

/-- C4 (amended): detecting a directory pattern already present in the
store increments the stored record's usage_count by 1 and refreshes its
last-detected timestamp, leaves its stored confidence_score (and every
other stored field and table) unchanged, and returns the stored
namespace and type, the stored confidence plus 5 capped at 100, and up
to 5 command names from the stored namespace. -/
theorem detect_context_seen_spec (st : Store) (fs : Fs) (directory_path : String)
    (user : Option String) (now : Int) (ctx : ProjectContext)
    (hfound : (st.contexts.filter
      (fun pc => pc.directory_pattern == lastSegment directory_path)).head? =
      some ctx) :
    (detect_project_context st fs directory_path user now).1 =
      { detected_namespace := some ctx.detected_namespace,
        project_type := some ctx.project_type,
        confidence_score := min 100 (ctx.confidence_score + 5),
        similar_commands := ((st.commands.filter
          (fun c => c.nspace == ctx.detected_namespace)).take 5).map
            (fun c => c.name) } ∧
    (detect_project_context st fs directory_path user now).2.contexts =
      st.contexts.map (fun x => if x.id == ctx.id then
        { x with usage_count := x.usage_count + 1, last_detected := now }
      else x) ∧
    (detect_project_context st fs directory_path user now).2.commands =
      st.commands ∧
    (detect_project_context st fs directory_path user now).2.history =
      st.history := by
  unfold detect_project_context
  dsimp only
  rw [hfound]
  exact ⟨rfl, rfl, rfl, rfl⟩

/-- Witness for the amended C4 at a concrete store. -/
theorem detect_context_seen_spec_witness :
    (detect_project_context stCtx fsEmpty "x/p" none 100).1 =
      { detected_namespace := some "ns", project_type := some "npm",
        confidence_score := 55, similar_commands := [] } := by
  rw [(detect_context_seen_spec stCtx fsEmpty "x/p" none 100 ctxSeen (by decide)).1]
  decide

/-- C5 counterexample: with user, hostname and cwd all absent,
`recall_command` does not skip its context tiers: tier 1 matches the
personal command whose stored context fields are null and wins, although
under the claim tiers 1-4 would be skipped and the global tier would
return the more recently created shared command. -/
theorem absent_tier_skip_counterexample :
    recallSelect stTwo "n" "s" none none none = some cmdNullCtx ∧
    recallTier stTwo "n" "s" none none none 0 = some cmdNullCtx ∧
    recallTier stTwo "n" "s" none none none 4 = some cmdShared ∧
    cmdNullCtx ≠ cmdShared := by decide

/-- C5 (amended): in `recall_command_by_name` every tier whose gate is
false — in particular any tier one of whose required optional fields is
absent — is skipped entirely: the result is unchanged when the tier is
erased, and with every optional field absent only the global tier
answers.  In `recall_command` tiers are not gated: with all context
fields absent, a first-tier match (against records whose stored fields
are null) is still returned. -/
theorem absent_tier_skip_spec :
    (∀ st name user hostname cwd nh sh k
      (hk : k < (byNameTiers st name user hostname cwd nh sh).length),
      ((byNameTiers st name user hostname cwd nh sh).get ⟨k, hk⟩).1 = false →
        byNameSelect st name user hostname cwd nh sh =
          runTiers ((byNameTiers st name user hostname cwd nh sh).eraseIdx k)) ∧
    (∀ st name,
      byNameSelect st name none none none none none =
        queryFirst (fun c => c.name == name) useLuDescLe st.commands) ∧
    (∀ st name nspace cmd,
      recallTier st name nspace none none none 0 = some cmd →
        recallSelect st name nspace none none none = some cmd) := by
  refine ⟨?_, ?_, ?_⟩
  · intro st name u hn cw nh sh k hk hg
    exact runTiers_eraseIdx _ k hk hg
  · intro st name
    show runTiers (byNameTiers st name none none none none none) = _
    simp only [byNameTiers, pyTruthy, Bool.false_and, Bool.and_false]
    simp only [runTiers, Bool.false_eq_true, if_false, if_true]
    cases hq : queryFirst (fun c => c.name == name) useLuDescLe st.commands with
    | none => simp [hq]
    | some c => simp [hq]
  · intro st name nspace cmd h0
    show firstSome
      [recallTier st name nspace none none none 0,
       recallTier st name nspace none none none 1,
       recallTier st name nspace none none none 2,
       recallTier st name nspace none none none 3,
       recallTier st name nspace none none none 4] = some cmd
    rw [h0]
    rfl

/-- Witness for the amended C5 at a concrete store: the user-gated first
tier of name-based recall is skipped when user is absent. -/
theorem absent_tier_skip_spec_witness :
    byNameSelect stAlice "secret" none none none none none =
      runTiers ((byNameTiers stAlice "secret" none none none none none).eraseIdx 0) :=
  absent_tier_skip_spec.1 stAlice "secret" none none none none none 0
    (by decide) (by decide)

lemma create_command_of_head (st : Store) (req : CommandCreate) (now : Int)
    (e : Command) (hh : (st.commands.filter (matchesCreate req)).head? = some e) :
    create_command st req now = ⟨e, false, st⟩ := by
  unfold create_command
  rw [hh]

lemma create_command_of_none (st : Store) (req : CommandCreate) (now : Int)
    (hh : (st.commands.filter (matchesCreate req)).head? = none) :
    create_command st req now =
      ⟨freshCommand req st.next_command_id now, true,
       { st with
         commands := st.commands ++ [freshCommand req st.next_command_id now],
         next_command_id := st.next_command_id + 1 }⟩ := by
  unfold create_command
  rw [hh]
  rfl

lemma matchesCreate_freshCommand (req : CommandCreate) (nid : Nat) (now : Int) :
    matchesCreate req (freshCommand req nid now) = true := by
  simp [matchesCreate, freshCommand]

/-- C6: `create_command` deduplicates on the full 7-tuple: when a stored
row agrees with the request on all seven fields the first such row is
returned not-new with the store untouched; otherwise a fresh row
(use_count 0, no last-used timestamp) is appended and returned new; and
calling again with the same request returns the same record not-new
without inserting, so two identical calls leave exactly one matching
stored record. -/
theorem create_command_idempotent (st : Store) (req : CommandCreate)
    (now now2 : Int) :
    (∀ e, (st.commands.filter (matchesCreate req)).head? = some e →
      create_command st req now = ⟨e, false, st⟩) ∧
    ((st.commands.filter (matchesCreate req)).head? = none →
      (create_command st req now).is_new = true ∧
      (create_command st req now).cmd = freshCommand req st.next_command_id now ∧
      (create_command st req now).store.commands =
        st.commands ++ [freshCommand req st.next_command_id now] ∧
      matchesCreate req ((create_command st req now).cmd) = true ∧
      ((create_command st req now).cmd).use_count = 0 ∧
      ((create_command st req now).cmd).last_used_at = none ∧
      ((create_command st req now).cmd).created_at = now) ∧
    (create_command (create_command st req now).store req now2 =
      ⟨(create_command st req now).cmd, false, (create_command st req now).store⟩) ∧
    (st.commands.filter (matchesCreate req) = [] →
      ((create_command st req now).store.commands.filter
        (matchesCreate req)).length = 1) := by
  cases hh : (st.commands.filter (matchesCreate req)).head? with
  | some e =>
    have h1 := create_command_of_head st req now e hh
    refine ⟨fun e2 he2 => ?_, fun hn => ?_, ?_, fun hfil => ?_⟩
    · have h12 : e = e2 := Option.some.inj he2
      rw [← h12]
      exact h1
    · exact absurd hn (by simp)
    · rw [h1]
      exact create_command_of_head st req now2 e hh
    · rw [hfil] at hh
      exact absurd hh (by simp)
  | none =>
    have hfil : st.commands.filter (matchesCreate req) = [] :=
      List.head?_eq_none_iff.mp hh
    have h1 := create_command_of_none st req now hh
    have hfl2 : ((create_command st req now).store.commands).filter
        (matchesCreate req) = [freshCommand req st.next_command_id now] := by
      rw [h1]
      simp only
      rw [List.filter_append, hfil]
      simp [matchesCreate_freshCommand]
    refine ⟨fun e2 he2 => ?_, fun _ => ?_, ?_, fun _ => ?_⟩
    · exact absurd he2 (by simp)
    · rw [h1]
      exact ⟨rfl, rfl, rfl, matchesCreate_freshCommand req st.next_command_id now,
        rfl, rfl, rfl⟩
    · have hh2 : ((create_command st req now).store.commands.filter
          (matchesCreate req)).head? = some (freshCommand req st.next_command_id now) := by
        rw [hfl2]
        rfl
      have h2 := create_command_of_head (create_command st req now).store req now2
        (freshCommand req st.next_command_id now) hh2
      rw [h2, h1]
    · rw [hfl2]
      rfl

/-- Witness for C6 at a concrete request: a second identical creation
returns the first record not-new and inserts nothing, leaving exactly
one matching stored record. -/
theorem create_command_idempotent_witness :
    create_command (create_command stEmpty reqDemo 5).store reqDemo 7 =
      ⟨(create_command stEmpty reqDemo 5).cmd, false,
       (create_command stEmpty reqDemo 5).store⟩ ∧
    ((create_command stEmpty reqDemo 5).store.commands.filter
      (matchesCreate reqDemo)).length = 1 :=
  ⟨(create_command_idempotent stEmpty reqDemo 5 7).2.2.1,
   (create_command_idempotent stEmpty reqDemo 5 7).2.2.2 (by decide)⟩

/-- C7: similarity returns the empty list for an absent id; otherwise the
same-namespace tier (excluding the base, by use_count descending, up to
the limit) alone when it fills the limit, and exactly when it falls
short, the positive word-overlap candidates sorted by overlap descending
with ties in scan order are appended up to the limit; the result never
exceeds the limit. -/
theorem command_similarity_spec (st : Store) (command_id limit : Nat) :
    ((st.commands.filter (fun c => c.id == command_id)).head? = none →
      get_command_similarity st command_id limit = []) ∧
    ∀ base, (st.commands.filter (fun c => c.id == command_id)).head? = some base →
      (limit ≤ (nsSimilar st base command_id limit).length →
        get_command_similarity st command_id limit =
          nsSimilar st base command_id limit) ∧
      ((nsSimilar st base command_id limit).length < limit →
        get_command_similarity st command_id limit =
          nsSimilar st base command_id limit ++
            ((overlapRanked st base command_id).take
              (limit - (nsSimilar st base command_id limit).length)).map
              Prod.fst) ∧
      (get_command_similarity st command_id limit).length ≤ limit := by
  constructor
  · intro hnone
    unfold get_command_similarity
    rw [hnone]
  · intro base hbase
    have hmain : get_command_similarity st command_id limit =
        if limit ≤ (nsSimilar st base command_id limit).length then
          nsSimilar st base command_id limit
        else
          (nsSimilar st base command_id limit ++
            ((overlapRanked st base command_id).take
              (limit - (nsSimilar st base command_id limit).length)).map
              Prod.fst).take limit := by
      unfold get_command_similarity
      rw [hbase]
      rfl
    refine ⟨fun hle => ?_, fun hlt => ?_, ?_⟩
    · rw [hmain, if_pos hle]
    · rw [hmain, if_neg (not_le.mpr hlt)]
      apply List.take_of_length_le
      rw [List.length_append, List.length_map]
      have h2 : ((overlapRanked st base command_id).take
          (limit - (nsSimilar st base command_id limit).length)).length ≤
          limit - (nsSimilar st base command_id limit).length :=
        List.length_take_le _ _
      omega
    · rw [hmain]
      split
      · exact List.length_take_le _ _
      · exact List.length_take_le _ _

/-- Witness for C7 at a concrete store: the namespace tier falls short of
the limit and the overlap tier is appended. -/
theorem command_similarity_spec_witness :
    get_command_similarity stSim 1 2 =
      nsSimilar stSim simBase 1 2 ++
        ((overlapRanked stSim simBase 1).take
          (2 - (nsSimilar stSim simBase 1 2).length)).map Prod.fst :=
  (((command_similarity_spec stSim 1 2).2 simBase (by decide)).2).1 (by decide)

/-- C8: suggestions return the gated tier concatenation (similar-directory
executions, then the caller's commands by use_count, then non-personal
commands by use_count) deduplicated by id in first-seen order and capped
at the limit: the result is never longer than the limit, repeats no
command id, is an order-preserving subsequence of the tier concatenation,
and the call leaves the store unchanged. -/
theorem suggestions_spec (st : Store)
    (user hostname cwd project_type : Option String) (limit : Nat) :
    (get_suggestions_for_context st user hostname cwd project_type limit).1 =
      dedupCap limit [] (suggestCand st user cwd limit) ∧
    (get_suggestions_for_context st user hostname cwd project_type limit).1.Sublist
      (suggestCand st user cwd limit) ∧
    (get_suggestions_for_context st user hostname cwd project_type
      limit).1.length ≤ limit ∧
    ((get_suggestions_for_context st user hostname cwd project_type limit).1.map
      (fun c => c.id)).Nodup ∧
    (get_suggestions_for_context st user hostname cwd project_type limit).2 =
      st := by
  have heq : (get_suggestions_for_context st user hostname cwd project_type
      limit).1 = dedupCap limit [] (suggestCand st user cwd limit) := rfl
  refine ⟨heq, ?_, ?_, ?_, rfl⟩
  · rw [heq]
    exact dedupCap_sublist limit _ []
  · rw [heq]
    have hl := dedupCap_length limit (suggestCand st user cwd limit) []
    simpa using hl
  · rw [heq]
    exact (dedupCap_nodup limit _ []).1

lemma cmpNatDesc_isLE (a b : Nat) : (cmpNatDesc a b).isLE = true ↔ b ≤ a := by
  unfold cmpNatDesc
  rcases Nat.lt_trichotomy b a with h | h | h
  · simp [Nat.compare_eq_lt.mpr h, Ordering.isLE]
    omega
  · subst h
    simp [Nat.compare_eq_eq.mpr rfl, Ordering.isLE]
  · simp [Nat.compare_eq_gt.mpr h, Ordering.isLE]
    omega

lemma length_take_map_le {α β : Type} (f : α → β) (l : List α) (n : Nat) :
    ((l.take n).map f).length ≤ n := by
  rw [List.length_map]
  exact List.length_take_le n l

lemma pairwise_top_ranked (l : List (Command × Nat)) (n : Nat) :
    (((sortBy (fun a b => (cmpNatDesc a.2 b.2).isLE) l).take n).map
      (fun p => AnalyticsRow.mk p.1.name p.1.nspace p.2)).Pairwise
      (fun a b => b.execution_count ≤ a.execution_count) := by
  have hp := pairwise_sortBy (fun a b : Command × Nat => (cmpNatDesc a.2 b.2).isLE)
    (fun a b c hab hbc => by
      rw [cmpNatDesc_isLE] at hab hbc ⊢
      omega)
    (fun a b => by
      rw [cmpNatDesc_isLE, cmpNatDesc_isLE]
      exact Nat.le_total b.2 a.2)
    l
  have hp2 := List.Pairwise.sublist (List.take_sublist n _) hp
  rw [List.pairwise_map]
  exact hp2.imp (fun hab => (cmpNatDesc_isLE _ _).mp hab)

/-- C9: analytics returns an average executions per day equal to the
total in-window execution count divided by the day window when the
window is positive and 0 when it is 0, at most 10 top commands ordered
by execution count descending, and leaves the store unchanged. -/
theorem analytics_spec (st : Store) (user : Option String) (days : Nat)
    (now : Int) :
    (get_execution_analytics st user days now).2 = st ∧
    (get_execution_analytics st user days now).1.average_executions_per_day =
      (if 0 < days then
        ((get_execution_analytics st user days now).1.total_executions : ℚ) /
          (days : ℚ)
      else 0) ∧
    (get_execution_analytics st user days now).1.most_used_commands.length ≤
      10 ∧
    (get_execution_analytics st user days now).1.most_used_commands.Pairwise
      (fun a b => b.execution_count ≤ a.execution_count) := by
  refine ⟨rfl, rfl, ?_, ?_⟩
  · exact length_take_map_le _ _ _
  · exact pairwise_top_ranked _ 10

/-- C10: a concrete store on which `get_command_similarity` returns the
same command twice: it is selected once by the same-namespace tier and
again by the word-overlap scan, which excludes only the base command. -/
theorem similarity_duplicate_example :
    get_command_similarity stSim 1 2 = [simOther, simOther] ∧
    simOther.nspace = simBase.nspace ∧
    0 < wordOverlap simBase.command_string simOther.command_string := by
  refine ⟨by decide, rfl, by decide⟩
